import Mathlib

/-!
Verification of the `Annotation` grammar production of the snarkVM circuit
language (circuits/core/src/annotation.rs): the three-variant annotation
value, its ordered-alternative parser, and its printer.

The embedding works on `List Char` as the text type. The `Annotation` type,
its predicates, its parser alternation and its printer are translated from
annotation.rs. The collaborators `Type`, `Identifier`, `Mode` and the record
type-name constant live outside the given sources, so they are modelled from
the specification (each such definition says so in its doc comment).
-/

namespace Snark

/-- Text, as the parser consumes it. -/
abbrev Input := List Char

/-- Convert a string literal to the text type. -/
def str (s : String) : Input := s.data

/-- Result of a parser: `none` on syntax error, `some (remaining, value)`
on success, mirroring nom's `IResult`. -/
def ParserResult (A : Type) : Type := Option (Input × A)

/-- The nom `tag` combinator's core: match `w` as a literal prefix of `s`,
returning the remaining input on success. -/
def tagCore : Input → Input → Option Input
  | [], s => some s
  | _ :: _, [] => none
  | c :: w, d :: s => if c = d then tagCore w s else none

/-- The nom `tag` combinator as a parser producing the matched text. -/
def tagP (w : Input) : Input → ParserResult Input := fun s =>
  match tagCore w s with
  | some r => some (r, w)
  | none => none

/-- The nom `map` combinator: apply `f` to the parsed value. -/
def pmap {A B : Type} (p : Input → ParserResult A) (f : A → B) :
    Input → ParserResult B := fun s =>
  match p s with
  | some (r, a) => some (r, f a)
  | none => none

/-- The nom `alt` combinator: try each parser in order, commit to the first
that succeeds. -/
def alt {A : Type} : List (Input → ParserResult A) → Input → ParserResult A
  | [], _ => none
  | p :: ps, s =>
    match p s with
    | some x => some x
    | none => alt ps s

/-- Modelled from the spec: the visibility modes of the mode grammar
(`.private`, `.public`, `.constant`), which lives outside the given
sources. -/
inductive Mode : Type
  | Constant : Mode
  | Public : Mode
  | Private : Mode
deriving DecidableEq

/-- Modelled from the spec: the canonical text of a mode. -/
def Mode.modeName : Mode → Input
  | .Constant => str "constant"
  | .Public => str "public"
  | .Private => str "private"

/-- Modelled from the spec: the mode parser, a tag per mode. -/
def Mode.parse : Input → ParserResult Mode :=
  alt
    [ pmap (tagP (str "constant")) (fun _ => Mode.Constant),
      pmap (tagP (str "public")) (fun _ => Mode.Public),
      pmap (tagP (str "private")) (fun _ => Mode.Private) ]

/-- Modelled from the spec: the primitive type names of the circuit-type
grammar, which lives outside the given sources (the spec names `field` as
an example; the rest follow the snarkVM circuit types). -/
inductive PrimType : Type
  | Address : PrimType
  | Boolean : PrimType
  | Field : PrimType
  | Group : PrimType
  | I8 : PrimType
  | I16 : PrimType
  | I32 : PrimType
  | I64 : PrimType
  | I128 : PrimType
  | U8 : PrimType
  | U16 : PrimType
  | U32 : PrimType
  | U64 : PrimType
  | U128 : PrimType
  | Scalar : PrimType
  | StringType : PrimType
deriving DecidableEq

/-- Modelled from the spec: the reserved name of each primitive type. -/
def PrimType.name : PrimType → Input
  | .Address => str "address"
  | .Boolean => str "boolean"
  | .Field => str "field"
  | .Group => str "group"
  | .I8 => str "i8"
  | .I16 => str "i16"
  | .I32 => str "i32"
  | .I64 => str "i64"
  | .I128 => str "i128"
  | .U8 => str "u8"
  | .U16 => str "u16"
  | .U32 => str "u32"
  | .U64 => str "u64"
  | .U128 => str "u128"
  | .Scalar => str "scalar"
  | .StringType => str "string"

/-- All primitive types, in the order the type grammar tries them. -/
def primList : List PrimType :=
  [.Address, .Boolean, .Field, .Group,
   .I8, .I16, .I32, .I64, .I128,
   .U8, .U16, .U32, .U64, .U128,
   .Scalar, .StringType]

/-- Modelled from the spec: a primitive type paired with a visibility mode
(the `Type<E>` collaborator), canonical text `<type_name>.<mode>`. -/
structure Ty : Type where
  prim : PrimType
  mode : Mode
deriving DecidableEq

/-- Modelled from the spec: the canonical text of a type,
`<type_name>.<mode>`. -/
def Ty.display (t : Ty) : Input := t.prim.name ++ str "." ++ t.mode.modeName

/-- Modelled from the spec: the type production for one primitive type:
its name, immediately followed by a `.` and a mode. A bare name with no
mode suffix fails. -/
def Ty.parseOne (p : PrimType) : Input → ParserResult Ty := fun s =>
  match tagCore p.name s with
  | none => none
  | some r1 =>
    match tagCore (str ".") r1 with
    | none => none
    | some r2 =>
      match Mode.parse r2 with
      | none => none
      | some (r3, m) => some (r3, ⟨p, m⟩)

/-- Modelled from the spec: the Type collaborator's parser, an ordered
alternation over the primitive types. -/
def Ty.parse : Input → ParserResult Ty :=
  alt (primList.map Ty.parseOne)

/-- Modelled from the spec: a character that may start an identifier. -/
def isIdentStart (c : Char) : Bool := c.isAlpha

/-- Modelled from the spec: a character that may continue an identifier
(a `.` cannot). -/
def isIdentCont (c : Char) : Bool := c.isAlphanum || c = '_'

/-- Modelled from the spec: the record type name constant,
`Record::type_name()`. -/
def recordName : Input := str "record"

/-- Modelled from the spec: the reserved keywords an identifier must not
equal: every primitive type name, and the record keyword. -/
def reservedKeywords : List Input := primList.map PrimType.name ++ [recordName]

/-- Modelled from the spec: the Identifier collaborator's parser. It
consumes the longest identifier-shaped prefix, stopping at the first
character that cannot continue an identifier, and rejects reserved
keywords. -/
def Identifier.parse : Input → ParserResult Input
  | [] => none
  | c :: cs =>
    if isIdentStart c then
      if (c :: List.takeWhile isIdentCont cs) ∈ reservedKeywords then none
      else some (List.dropWhile isIdentCont cs, c :: List.takeWhile isIdentCont cs)
    else none

/-- The annotation value: a literal type, a composite identifier, or the
record type (from annotation.rs, `enum Annotation<E>`). -/
inductive Annot : Type
  | Literal : Ty → Annot
  | Composite : Input → Annot
  | Record : Annot
deriving DecidableEq

/-- Returns true if the annotation is a literal (from annotation.rs). -/
def Annot.is_literal : Annot → Bool
  | .Literal _ => true
  | .Composite _ => false
  | .Record => false

/-- Returns true if the annotation is a composite (from annotation.rs). -/
def Annot.is_composite : Annot → Bool
  | .Literal _ => false
  | .Composite _ => true
  | .Record => false

/-- Returns true if the annotation is a record (from annotation.rs). -/
def Annot.is_record : Annot → Bool
  | .Literal _ => false
  | .Composite _ => false
  | .Record => true

/-- The annotation parser (from annotation.rs): an ordered alternation of
the Type production, the Identifier production, and the record tag. -/
def Annot.parse : Input → ParserResult Annot :=
  alt
    [ pmap Ty.parse Annot.Literal,
      pmap Identifier.parse Annot.Composite,
      pmap (tagP recordName) (fun _ => Annot.Record) ]

/-- The annotation printer (from annotation.rs, `impl fmt::Display`). -/
def Annot.display : Annot → Input
  | .Literal t => t.display
  | .Composite i => i
  | .Record => recordName

/-- A well-formed identifier token: a start character followed by
continuation characters only. -/
def validIdent : Input → Bool
  | [] => false
  | c :: cs => isIdentStart c && cs.all isIdentCont

/-- A canonical annotation value, as the round-trip contract requires:
a `Composite` must hold a well-formed, non-reserved identifier; `Literal`
and `Record` are canonical by construction. -/
def canonicalAnn : Annot → Bool
  | .Literal _ => true
  | .Composite i => validIdent i && !(decide (i ∈ reservedKeywords))
  | .Record => true

/-! Helper lemmas about the parser combinators and productions. -/

/-- A successful `tagCore` split the input after a copy of the tag. -/
theorem tagCore_eq_some : ∀ {w s r : Input}, tagCore w s = some r → s = w ++ r := by
  intro w
  induction w with
  | nil =>
    intro s r h
    injection h with h
  | cons c w ih =>
    intro s r h
    cases s with
    | nil => exact absurd h (by simp [tagCore])
    | cons d s =>
      unfold tagCore at h
      split at h
      · next hcd => rw [List.cons_append, ← hcd, ih h]
      · exact absurd h (by simp)

/-- A successful `tagP` produced the tag and the split remainder. -/
theorem tagP_eq_some {w s r v : Input} (h : tagP w s = some (r, v)) :
    s = w ++ r ∧ v = w := by
  unfold tagP at h
  cases hc : tagCore w s with
  | none => rw [hc] at h; exact absurd h (by simp)
  | some r1 =>
    rw [hc] at h
    injection h with h
    obtain ⟨h1, h2⟩ := Prod.mk.injEq .. ▸ h
    exact ⟨h1 ▸ tagCore_eq_some hc, h2.symm⟩

/-- A successful `pmap` came from a successful inner parse. -/
theorem pmap_eq_some {A B : Type} {p : Input → ParserResult A} {f : A → B}
    {s r : Input} {b : B} (h : pmap p f s = some (r, b)) :
    ∃ a, p s = some (r, a) ∧ b = f a := by
  unfold pmap at h
  cases hp : p s with
  | none => rw [hp] at h; exact absurd h (by simp)
  | some x =>
    obtain ⟨r1, a⟩ := x
    rw [hp] at h
    injection h with h
    obtain ⟨h1, h2⟩ := Prod.mk.injEq .. ▸ h
    refine ⟨a, ?_, h2.symm⟩
    rw [h1]

/-- A successful alternation came from one of its alternatives. -/
theorem alt_eq_some {A : Type} :
    ∀ {ps : List (Input → ParserResult A)} {s : Input} {x : Input × A},
      alt ps s = some x → ∃ p ∈ ps, p s = some x := by
  intro ps
  induction ps with
  | nil => intro s x h; exact absurd h (by simp [alt])
  | cons p ps ih =>
    intro s x h
    unfold alt at h
    cases hp : p s with
    | some y =>
      rw [hp] at h
      injection h with h
      exact ⟨p, by simp, hp.trans (congrArg some h)⟩
    | none =>
      rw [hp] at h
      obtain ⟨q, hq, hqs⟩ := ih h
      exact ⟨q, by simp [hq], hqs⟩

/-- An alternation whose alternatives all fail fails. -/
theorem alt_eq_none {A : Type} :
    ∀ {ps : List (Input → ParserResult A)} {s : Input},
      (∀ p ∈ ps, p s = none) → alt ps s = none := by
  intro ps
  induction ps with
  | nil => intro s _; rfl
  | cons p ps ih =>
    intro s h
    unfold alt
    rw [h p (by simp), ih (fun q hq => h q (by simp [hq]))]

/-- A successful mode parse consumed exactly the mode's canonical text. -/
theorem mode_parse_eq_some {s r : Input} {m : Mode}
    (h : Mode.parse s = some (r, m)) : s = m.modeName ++ r := by
  obtain ⟨p, hp, hps⟩ := alt_eq_some h
  simp only [Mode.parse, List.mem_cons, List.not_mem_nil, or_false] at hp
  rcases hp with hp | hp | hp <;> rw [hp] at hps <;>
    obtain ⟨v, hv, hm⟩ := pmap_eq_some hps <;>
    obtain ⟨h1, _⟩ := tagP_eq_some hv <;> rw [hm, h1] <;> rfl

/-- A successful single-type parse produced that type and consumed its
canonical `<type_name>.<mode>` text. -/
theorem Ty.parseOne_eq_some {p : PrimType} {s r : Input} {t : Ty}
    (h : Ty.parseOne p s = some (r, t)) : t.prim = p ∧ s = t.display ++ r := by
  unfold Ty.parseOne at h
  split at h
  · exact absurd h (by simp)
  · rename_i r1 h1
    split at h
    · exact absurd h (by simp)
    · rename_i r2 h2
      split at h
      · exact absurd h (by simp)
      · rename_i r3 m h3
        injection h with h
        obtain ⟨hr, ht⟩ := Prod.mk.injEq .. ▸ h
        rw [← ht]
        refine ⟨rfl, ?_⟩
        rw [tagCore_eq_some h1, tagCore_eq_some h2, mode_parse_eq_some h3, hr]
        simp [Ty.display, List.append_assoc]

/-- A successful type parse consumed exactly the type's canonical text. -/
theorem ty_parse_eq_some {s r : Input} {t : Ty}
    (h : Ty.parse s = some (r, t)) : s = t.display ++ r := by
  obtain ⟨p, hp, hps⟩ := alt_eq_some h
  obtain ⟨q, _, hq⟩ := List.mem_map.mp hp
  rw [← hq] at hps
  exact (Ty.parseOne_eq_some hps).2

/-- A successful identifier parse split the input at the end of the token,
and the token is a well-formed, non-reserved identifier. -/
theorem ident_parse_eq_some {s r i : Input}
    (h : Identifier.parse s = some (r, i)) :
    s = i ++ r ∧ validIdent i = true ∧ i ∉ reservedKeywords := by
  cases s with
  | nil => exact absurd h (by simp [Identifier.parse])
  | cons c cs =>
    simp only [Identifier.parse] at h
    by_cases hs : isIdentStart c = true
    · rw [if_pos hs] at h
      by_cases hm : (c :: List.takeWhile isIdentCont cs) ∈ reservedKeywords
      · rw [if_pos hm] at h
        exact absurd h (by simp)
      · rw [if_neg hm] at h
        injection h with h
        obtain ⟨hr, hi⟩ := Prod.mk.injEq .. ▸ h
        rw [← hi, ← hr]
        refine ⟨?_, ?_, hm⟩
        · rw [List.cons_append, List.takeWhile_append_dropWhile]
        · simp only [validIdent, hs, Bool.true_and, List.all_eq_true]
          exact fun x hx => List.mem_takeWhile_imp hx
    · rw [if_neg hs] at h
      exact absurd h (by simp)

/-- A successful annotation parse consumed exactly the display text of the
returned value. -/
theorem annot_parse_eq_some {s r : Input} {a : Annot}
    (h : Annot.parse s = some (r, a)) : s = Annot.display a ++ r := by
  obtain ⟨p, hp, hps⟩ := alt_eq_some h
  simp only [Annot.parse, List.mem_cons, List.not_mem_nil, or_false] at hp
  rcases hp with hp | hp | hp <;> rw [hp] at hps
  · obtain ⟨t, ht, ha⟩ := pmap_eq_some hps
    rw [ha]
    exact ty_parse_eq_some ht
  · obtain ⟨i, hi, ha⟩ := pmap_eq_some hps
    rw [ha]
    exact (ident_parse_eq_some hi).1
  · obtain ⟨v, hv, ha⟩ := pmap_eq_some hps
    rw [ha]
    exact (tagP_eq_some hv).1

/-- Every primitive type name is nonempty. -/
theorem PrimType.name_ne_nil (p : PrimType) : p.name ≠ [] := by
  cases p <;> decide

/-- The type production never matches a well-formed identifier token: the
token contains no `.`, which the type production requires after the
(nonempty) type name. -/
theorem Ty.parseOne_none {p : PrimType} {i : Input}
    (hv : validIdent i = true) : Ty.parseOne p i = none := by
  unfold Ty.parseOne
  split
  · rfl
  · rename_i r1 h1
    split
    · rfl
    · rename_i r2 h2
      exfalso
      obtain ⟨pc, prest, hpname⟩ := List.exists_cons_of_ne_nil (PrimType.name_ne_nil p)
      have hi : i = pc :: (prest ++ '.' :: r2) := by
        rw [tagCore_eq_some h1, tagCore_eq_some h2, hpname]
        rfl
      rw [hi] at hv
      simp only [validIdent, Bool.and_eq_true, List.all_eq_true] at hv
      have : isIdentCont '.' = true :=
        hv.2 '.' (by simp)
      exact absurd this (by decide)

/-- The whole type alternation fails on a well-formed identifier token. -/
theorem Ty.parse_none {i : Input} (hv : validIdent i = true) :
    Ty.parse i = none := by
  refine alt_eq_none fun p hp => ?_
  obtain ⟨q, _, hq⟩ := List.mem_map.mp hp
  rw [← hq]
  exact Ty.parseOne_none hv

/-- The identifier production consumes a whole well-formed, non-reserved
token, leaving nothing. -/
theorem Identifier.parse_token {i : Input} (hv : validIdent i = true)
    (hr : i ∉ reservedKeywords) : Identifier.parse i = some ([], i) := by
  cases i with
  | nil => exact absurd hv (by decide)
  | cons c cs =>
    simp only [validIdent, Bool.and_eq_true] at hv
    obtain ⟨hs, ha⟩ := hv
    have htake : List.takeWhile isIdentCont cs = cs := by
      have hdrop : List.dropWhile isIdentCont cs = [] :=
        List.dropWhile_eq_nil_iff.mpr (List.all_eq_true.mp ha)
      have := List.takeWhile_append_dropWhile isIdentCont cs
      rw [hdrop, List.append_nil] at this
      exact this
    have hdrop : List.dropWhile isIdentCont cs = [] :=
      List.dropWhile_eq_nil_iff.mpr (List.all_eq_true.mp ha)
    simp only [Identifier.parse]
    rw [if_pos hs, htake, hdrop, if_neg hr]

/-- Parsing the display of any literal annotation returns that value with
empty remainder. -/
theorem Annot.parse_display_literal (t : Ty) :
    Annot.parse (Annot.display (Annot.Literal t)) = some ([], Annot.Literal t) := by
  obtain ⟨p, m⟩ := t
  cases p <;> cases m <;> rfl

/-! Claim theorems. -/

/-- Claim C4: parsing `field.private` succeeds, producing the `Literal` variant
holding the `Field` type with `Private` mode, with empty remainder. -/
theorem parse_field_private :
    Annot.parse (str "field.private") =
      some ([], Annot.Literal ⟨PrimType.Field, Mode.Private⟩) := by
  rfl

/-- Claim C5: parsing the bare primitive type name `field` (no mode suffix)
fails: no alternative claims the input. -/
theorem parse_bare_field_fails : Annot.parse (str "field") = none := by
  rfl

/-- Claim C6: parsing `record` succeeds, producing the `Record` variant with
empty remainder. -/
theorem parse_record_keyword :
    Annot.parse (str "record") = some ([], Annot.Record) := by
  rfl

/-- Claim C7: parsing `signature` succeeds, producing the `Composite` variant
holding the identifier `signature`, with empty remainder. -/
theorem parse_signature :
    Annot.parse (str "signature") = some ([], Annot.Composite (str "signature")) := by
  rfl

/-- Claim C10: parsing `record.private` succeeds, producing the `Record`
variant with unconsumed remainder `.private`. -/
theorem parse_record_private :
    Annot.parse (str "record.private") = some (str ".private", Annot.Record) := by
  rfl

/-- Claim C2: the parser tries exactly three alternatives in the fixed priority
order Type, Identifier, record keyword, and commits to the first that
succeeds on a prefix of the input; if all three fail, parsing fails. -/
theorem parse_priority (s : Input) :
    Annot.parse s =
      (match Ty.parse s with
       | some (r, t) => some (r, Annot.Literal t)
       | none =>
         match Identifier.parse s with
         | some (r, i) => some (r, Annot.Composite i)
         | none =>
           match tagP recordName s with
           | some (r, _) => some (r, Annot.Record)
           | none => none) := by
  show alt _ s = _
  simp only [alt, pmap]
  rcases Ty.parse s with _ | ⟨r, t⟩
  · rcases Identifier.parse s with _ | ⟨r, i⟩
    · rcases tagP recordName s with _ | ⟨r, w⟩ <;> rfl
    · rfl
  · rfl

/-- Claim C3: for every annotation value, exactly one of the three predicates
`is_literal`, `is_composite`, `is_record` returns true. -/
theorem predicates_exclusive (a : Annot) :
    ((a.is_literal && !a.is_composite && !a.is_record) ||
     (!a.is_literal && a.is_composite && !a.is_record) ||
     (!a.is_literal && !a.is_composite && a.is_record)) = true := by
  cases a <;> rfl

/-- Distinct primitive types have distinct reserved names. -/
theorem PrimType.name_inj (p q : PrimType) : p.name = q.name ↔ p = q := by
  cases p <;> cases q <;> decide

/-- Claim C9: structural equality compares the variant tag first — values of
distinct variants are never equal; two `Literal` values are equal iff
their type payloads (name and mode) are equal; two `Composite` values are
equal iff their identifier payloads are equal; `Record` carries no
payload. -/
theorem equality_structure :
    (∀ t u : Ty,
        (Annot.Literal t = Annot.Literal u ↔
          t.prim.name = u.prim.name ∧ t.mode = u.mode)) ∧
    (∀ i j : Input, (Annot.Composite i = Annot.Composite j ↔ i = j)) ∧
    (∀ t i, Annot.Literal t ≠ Annot.Composite i) ∧
    (∀ t, Annot.Literal t ≠ Annot.Record) ∧
    (∀ i, Annot.Composite i ≠ Annot.Record) := by
  refine ⟨fun t u => ?_, fun i j => ?_, fun t i h => ?_, fun t h => ?_, fun i h => ?_⟩
  · rw [Annot.Literal.injEq, PrimType.name_inj]
    cases t
    cases u
    simp [Ty.mk.injEq, And.comm]
  · exact iff_of_eq (Annot.Composite.injEq i j)
  · exact Annot.noConfusion h
  · exact Annot.noConfusion h
  · exact Annot.noConfusion h

/-- Witness for claim C9 at concrete values: a literal annotation is never
equal to the record annotation. -/
theorem equality_structure_witness :
    Annot.Literal ⟨PrimType.Field, Mode.Private⟩ ≠ Annot.Record :=
  equality_structure.2.2.2.1 ⟨PrimType.Field, Mode.Private⟩

/-- Claim C1: display and parse round-trip on canonical values — a parse that
consumed its whole input displays back to that input, and a canonical
value parses back from its display with empty remainder. -/
theorem round_trip :
    (∀ (s : Input) (a : Annot), Annot.parse s = some ([], a) →
        Annot.display a = s) ∧
    (∀ a : Annot, canonicalAnn a = true →
        Annot.parse (Annot.display a) = some ([], a)) := by
  constructor
  · intro s a h
    rw [annot_parse_eq_some h, List.append_nil]
  · intro a ha
    cases a with
    | Literal t => exact Annot.parse_display_literal t
    | Composite i =>
      simp only [canonicalAnn, Bool.and_eq_true, Bool.not_eq_eq_eq_not,
        Bool.not_true, decide_eq_false_iff_not] at ha
      obtain ⟨hv, hr⟩ := ha
      have h1 : Ty.parse i = none := Ty.parse_none hv
      have h2 : Identifier.parse i = some ([], i) := Identifier.parse_token hv hr
      simp [Annot.parse, alt, pmap, Annot.display, h1, h2]
    | Record => rfl

/-- Witness for claim C1 at concrete values: `field.private` displays back from
its parse, and the composite `signature` parses back from its display. -/
theorem round_trip_witness :
    Annot.display (Annot.Literal ⟨PrimType.Field, Mode.Private⟩) =
        str "field.private" ∧
    Annot.parse (Annot.display (Annot.Composite (str "signature"))) =
      some ([], Annot.Composite (str "signature")) :=
  ⟨round_trip.1 (str "field.private")
      (Annot.Literal ⟨PrimType.Field, Mode.Private⟩) (by rfl),
   round_trip.2 (Annot.Composite (str "signature")) (by rfl)⟩

/-- Claim C8: the parser does not require full consumption — whenever the
identifier production matches a prefix (and the type production does not
claim the input), the parse succeeds with the `Composite` variant and the
unconsumed suffix is returned; in particular `signature.private` parses
to `Composite("signature")` with remainder `.private`. -/
theorem partial_consumption :
    (∀ (s r i : Input), Identifier.parse s = some (r, i) →
        Ty.parse s = none → Annot.parse s = some (r, Annot.Composite i)) ∧
    Annot.parse (str "signature.private") =
      some (str ".private", Annot.Composite (str "signature")) := by
  constructor
  · intro s r i hi ht
    simp [Annot.parse, alt, pmap, ht, hi]
  · rfl

/-- Witness for claim C8 at concrete values: the general prefix-matching rule
applied at the input `signature.private`. -/
theorem partial_consumption_witness :
    Annot.parse (str "signature.private") =
      some (str ".private", Annot.Composite (str "signature")) :=
  partial_consumption.1 (str "signature.private") (str ".private")
    (str "signature") (by rfl) (by rfl)

end Snark
